import Mathlib

/-!
Verification of `ib/opt/receiver.py` (IbPy): a publish/subscribe dispatcher.

The Python module defines:
* `messageMethod(name, argnames)` — builds an entry-point closure that zips
  the declared argument names with the positional values and calls
  `self.dispatch(name, params)`;
* `ReceiverType.__new__` — installs one such entry point per
  `(name, argnames)` pair of the Callback Argument Table into the class
  namespace (a dict assignment, so a later pair with the same name wins);
* `Receiver` with `dispatch`, `register`, `registerAll`, `unregister`,
  `unregisterAll`, the static `key`, and the hand-written overloaded
  `error` family.

The embedding below translates those functions directly.  Python dicts are
modelled as association lists with unique keys maintained by the
operations (`alookup` finds the first match, `aupdate` replaces the value
of the first matching key, `setdefault` on a missing key appends a fresh
entry).  Python lists of listeners are Lean lists; `list.remove(x)`
removes the first occurrence (`removeFirst`).  Listener callables are an
abstract type `L` with decidable equality (Python compares them with
`in` / `remove`, i.e. by equality).  Runtime values are `PyVal`, enough
structure to distinguish the string / int / other shapes that the `error`
overloads discriminate on.
-/

/-- A runtime Python value, with just enough structure to model the
shape-based overload resolution of the `error` family: integers, strings,
and opaque other objects. -/
inductive PyVal where
  | int : Int → PyVal
  | str : String → PyVal
  | obj : Nat → PyVal
deriving DecidableEq, Repr

/-- `true` exactly on string values (Python `isinstance(v, str)`). -/
def PyVal.isStr : PyVal → Bool
  | PyVal.str _ => true
  | _ => false

/-- A message type of the Type Registry: an opaque constructor carrying an
optional declared name (Python `__name__`) and a string rendering
(Python `str(obj)`), which is all `Receiver.key` inspects. -/
structure MType where
  pyName : Option String
  strRepr : String
deriving DecidableEq, Repr

/-- A field mapping: the keyword arguments passed to a message
constructor, as an association list of field name and value. -/
abbrev Mapping := List (String × PyVal)

/-- Modelled from the spec: the Message classes live in `ib.opt.message`
(not under `src/`); per the spec a Message Instance is constructed from a
Message Type and a field mapping, with field values equal to the supplied
mapping.  `mtype(**mapping)` is therefore embedded as the pair of the
type and the mapping. -/
structure Message where
  mtype : MType
  fields : Mapping
deriving DecidableEq, Repr

/-- First-match lookup in an association list (Python `d[k]` /
`KeyError`, on dicts whose keys the operations keep unique). -/
def alookup {α : Type} : List (String × α) → String → Option α
  | [], _ => none
  | (k, v) :: rest, key => if k = key then some v else alookup rest key

/-- Replace the value of the first entry with the given key (in-place
mutation of the object stored under that key in a Python dict). -/
def aupdate {α : Type} : List (String × α) → String → α → List (String × α)
  | [], _, _ => []
  | (k, v) :: rest, key, nv =>
      if k = key then (k, nv) :: rest else (k, v) :: aupdate rest key nv

/-- Remove the first occurrence of an element (Python `list.remove`). -/
def removeFirst {L : Type} [DecidableEq L] : List L → L → List L
  | [], _ => []
  | x :: xs, a => if x = a then xs else x :: removeFirst xs a

/-- The `Receiver` state: the Listener Registry `listeners` (message-type
key to ordered listener collection) and the Type Registry `types`
(callback name to message type), as set up by `Receiver.__init__`. -/
structure Receiver (L : Type) where
  listeners : List (String × List L)
  types : List (String × MType)
deriving DecidableEq, Repr

namespace Receiver

/-- `Receiver.key`: the declared `__name__` when the object exposes one,
otherwise `str(obj)` (the `AttributeError` branch).  Total: it always
returns a string. -/
def key (obj : MType) : String :=
  match obj.pyName with
  | some n => n
  | none => obj.strRepr

/-- `Receiver.dispatch(name, mapping)`: look up the message type for
`name` and the listener collection for its key; a `KeyError` from either
lookup is swallowed (`pass`).  Otherwise construct `message =
mtype(**mapping)` and call each listener with it in collection order.
The result records the state after the call (the method assigns to no
attribute, so it is the input state), the message instance constructed
(if any), and the ordered trace of listener invocations. -/
def dispatch {L : Type} (r : Receiver L) (name : String) (mapping : Mapping) :
    Receiver L × Option Message × List (L × Message) :=
  match alookup r.types name with
  | none => (r, none, [])
  | some mtype =>
    match alookup r.listeners (key mtype) with
    | none => (r, none, [])
    | some ls =>
      let message : Message := ⟨mtype, mapping⟩
      (r, some message, ls.map fun l => (l, message))

/-- One iteration of the `register` loop: `listeners =
self.listeners.setdefault(key, [])`, then append the listener unless
already present. -/
def registerOne {L : Type} [DecidableEq L] (r : Receiver L) (listener : L)
    (mtype : MType) : Receiver L :=
  let k := key mtype
  match alookup r.listeners k with
  | none => { r with listeners := r.listeners ++ [(k, [listener])] }
  | some ls =>
      if listener ∈ ls then r
      else { r with listeners := aupdate r.listeners k (ls ++ [listener]) }

/-- `Receiver.register(listener, *types)`: the loop over the given
message types. -/
def register {L : Type} [DecidableEq L] (r : Receiver L) (listener : L)
    (types : List MType) : Receiver L :=
  types.foldl (fun s t => registerOne s listener t) r

/-- `Receiver.registerAll(listener)`:
`self.register(listener, *self.types.values())`. -/
def registerAll {L : Type} [DecidableEq L] (r : Receiver L) (listener : L) :
    Receiver L :=
  register r listener (r.types.map Prod.snd)

/-- One iteration of the `unregister` loop: look up the collection for
the type's key (a `KeyError` is swallowed), and if the listener is
present remove its first occurrence. -/
def unregisterOne {L : Type} [DecidableEq L] (r : Receiver L) (listener : L)
    (mtype : MType) : Receiver L :=
  match alookup r.listeners (key mtype) with
  | none => r
  | some ls =>
      if listener ∈ ls then
        { r with listeners := aupdate r.listeners (key mtype) (removeFirst ls listener) }
      else r

/-- `Receiver.unregister(listener, *types)`: the loop over the given
message types. -/
def unregister {L : Type} [DecidableEq L] (r : Receiver L) (listener : L)
    (types : List MType) : Receiver L :=
  types.foldl (fun s t => unregisterOne s listener t) r

/-- `Receiver.unregisterAll(listener)`:
`self.unregister(listener, *self.types.values())`. -/
def unregisterAll {L : Type} [DecidableEq L] (r : Receiver L) (listener : L) :
    Receiver L :=
  unregister r listener (r.types.map Prod.snd)

/-- Modelled from the spec: the `@overloaded` decorator comes from
`ib.aux.overloading`, which is not under `src/`.  Per the spec it selects
the most specific handler by the runtime shape of the arguments: a single
string value goes to the `(object, str)` overload, any other single value
to the default handler, and an `(int, int, str)` triple to the
`(object, int, int, str)` overload; a shape matching none of the three
fails (`none`).  The three handler bodies below are translated from the
source (`error`, `error_0`, `error_1`). -/
def error {L : Type} (r : Receiver L) :
    List PyVal → Option (Receiver L × Option Message × List (L × Message))
  | [PyVal.str s] => some (dispatch r "error" [("errorMsg", PyVal.str s)])
  | [e] => some (dispatch r "error" [("errorMsg", e)])
  | [PyVal.int i, PyVal.int c, PyVal.str m] =>
      some (dispatch r "error"
        [("id", PyVal.int i), ("errorCode", PyVal.int c), ("errorMsg", PyVal.str m)])
  | _ => none

end Receiver

/-- `messageMethod(name, argnames)`: the generated entry point.  Invoked
with positional values it computes `params = dict(zip(argnames, args))`
and calls `self.dispatch(name, params)`.  With distinct argument names
the dict is exactly the zipped association list. -/
def messageMethod {L : Type} (name : String) (argnames : List String) :
    Receiver L → List PyVal → Receiver L × Option Message × List (L × Message) :=
  fun self args => Receiver.dispatch self name (argnames.zip args)

/-- The namespace produced by `ReceiverType.__new__`: iterating the
Callback Argument Table and assigning `namespace[mname] =
messageMethod(mname, margs)` means a later pair with the same name
overwrites an earlier one, so lookup returns the last match. -/
def wrapperLookup : List (String × List String) → String → Option (List String)
  | [], _ => none
  | (n, args) :: rest, name =>
      match wrapperLookup rest name with
      | some found => some found
      | none => if n = name then some args else none

/-- The entry point the Receiver class exposes under `name`, given the
Callback Argument Table: `messageMethod name argnames` for the installed
argument-name list, or none when the table has no such name. -/
def receiverMethod {L : Type} (table : List (String × List String)) (name : String) :
    Option (Receiver L → List PyVal → Receiver L × Option Message × List (L × Message)) :=
  (wrapperLookup table name).map (fun argnames => messageMethod name argnames)

/-- The registry well-formedness invariant: every listener collection is
duplicate-free.  It holds of the initial empty registry and is preserved
by `register` and `unregister`. -/
def WF {L : Type} (r : Receiver L) : Prop :=
  ∀ p ∈ r.listeners, (Prod.snd p).Nodup

/-- A register or unregister call, for reasoning about arbitrary call
sequences. -/
inductive Op (L : Type) where
  | reg : L → List MType → Op L
  | unreg : L → List MType → Op L

/-- Apply one call to the receiver state. -/
def applyOp {L : Type} [DecidableEq L] (r : Receiver L) : Op L → Receiver L
  | Op.reg l ts => Receiver.register r l ts
  | Op.unreg l ts => Receiver.unregister r l ts

/-- Run a sequence of register/unregister calls on a receiver whose
listener registry starts empty (a fresh `Receiver` with the given Type
Registry). -/
def runOps {L : Type} [DecidableEq L] (tys : List (String × MType))
    (ops : List (Op L)) : Receiver L :=
  ops.foldl applyOp (Receiver.mk [] tys)

/-! ### Association-list and list helper lemmas -/

theorem alookup_mem {α : Type} {l : List (String × α)} {k : String} {v : α}
    (h : alookup l k = some v) : (k, v) ∈ l := by
  induction l with
  | nil => simp [alookup] at h
  | cons p rest ih =>
    obtain ⟨pk, pv⟩ := p
    by_cases hk : pk = k
    · subst hk
      simp [alookup] at h
      subst h
      exact List.mem_cons_self _ _
    · simp [alookup, hk] at h
      exact List.mem_cons_of_mem _ (ih h)

theorem alookup_aupdate_self {α : Type} {l : List (String × α)} {k : String} {v : α}
    (nv : α) (h : alookup l k = some v) :
    alookup (aupdate l k nv) k = some nv := by
  induction l with
  | nil => simp [alookup] at h
  | cons p rest ih =>
    obtain ⟨pk, pv⟩ := p
    by_cases hk : pk = k
    · subst hk
      simp [alookup, aupdate]
    · simp [alookup, aupdate, hk] at h ⊢
      exact ih h

theorem alookup_aupdate_ne {α : Type} (l : List (String × α)) {k k2 : String}
    (nv : α) (hne : k ≠ k2) :
    alookup (aupdate l k nv) k2 = alookup l k2 := by
  induction l with
  | nil => simp [aupdate]
  | cons p rest ih =>
    obtain ⟨pk, pv⟩ := p
    by_cases hk : pk = k
    · subst hk
      simp [aupdate, alookup, hne]
    · simp [aupdate, alookup, hk]
      by_cases hk2 : pk = k2
      · simp [hk2]
      · simp [hk2]
        exact ih

theorem alookup_append_some {α : Type} {l : List (String × α)} (m : List (String × α))
    {k : String} {v : α} (h : alookup l k = some v) :
    alookup (l ++ m) k = some v := by
  induction l with
  | nil => simp [alookup] at h
  | cons p rest ih =>
    obtain ⟨pk, pv⟩ := p
    by_cases hk : pk = k
    · subst hk
      simp [alookup] at h ⊢
      exact h
    · simp [alookup, hk] at h ⊢
      exact ih h

theorem alookup_append_none {α : Type} {l : List (String × α)} (m : List (String × α))
    {k : String} (h : alookup l k = none) :
    alookup (l ++ m) k = alookup m k := by
  induction l with
  | nil => simp
  | cons p rest ih =>
    obtain ⟨pk, pv⟩ := p
    by_cases hk : pk = k
    · subst hk
      simp [alookup] at h
    · simp [alookup, hk] at h ⊢
      exact ih h

theorem mem_aupdate {α : Type} {l : List (String × α)} {k : String} {nv : α}
    {p : String × α} (h : p ∈ aupdate l k nv) : p ∈ l ∨ p = (k, nv) := by
  induction l with
  | nil => simp [aupdate] at h
  | cons q rest ih =>
    obtain ⟨qk, qv⟩ := q
    by_cases hk : qk = k
    · subst hk
      simp [aupdate] at h
      rcases h with h | h
      · right
        simp [h]
      · left
        exact List.mem_cons_of_mem _ h
    · simp [aupdate, hk] at h
      rcases h with h | h
      · left
        simp [h]
      · rcases ih h with h2 | h2
        · left
          exact List.mem_cons_of_mem _ h2
        · right
          exact h2

theorem removeFirst_eq_erase {L : Type} [DecidableEq L] (l : List L) (a : L) :
    removeFirst l a = l.erase a := by
  induction l with
  | nil => simp [removeFirst]
  | cons x xs ih =>
    by_cases hx : x = a
    · subst hx
      simp [removeFirst, List.erase_cons_head]
    · rw [removeFirst, if_neg hx, List.erase_cons_tail, ih]
      simp [hx]

/-! ### Registry operation lemmas -/

namespace Receiver

theorem registerOne_types {L : Type} [DecidableEq L] (r : Receiver L) (l : L)
    (t : MType) : (registerOne r l t).types = r.types := by
  unfold registerOne
  cases h : alookup r.listeners (key t) with
  | none => simp [h]
  | some ls =>
    by_cases hm : l ∈ ls
    · simp [h, hm]
    · simp [h, hm]

theorem unregisterOne_types {L : Type} [DecidableEq L] (r : Receiver L) (l : L)
    (t : MType) : (unregisterOne r l t).types = r.types := by
  unfold unregisterOne
  cases h : alookup r.listeners (key t) with
  | none => simp [h]
  | some ls =>
    by_cases hm : l ∈ ls
    · simp [h, hm]
    · simp [h, hm]

theorem register_types {L : Type} [DecidableEq L] (r : Receiver L) (l : L)
    (ts : List MType) : (register r l ts).types = r.types := by
  induction ts generalizing r with
  | nil => rfl
  | cons t rest ih =>
    unfold register at ih ⊢
    rw [List.foldl_cons, ih, registerOne_types]

theorem unregister_types {L : Type} [DecidableEq L] (r : Receiver L) (l : L)
    (ts : List MType) : (unregister r l ts).types = r.types := by
  induction ts generalizing r with
  | nil => rfl
  | cons t rest ih =>
    unfold unregister at ih ⊢
    rw [List.foldl_cons, ih, unregisterOne_types]

theorem registerOne_frame {L : Type} [DecidableEq L] (r : Receiver L) (l : L)
    (t : MType) {k : String} (hne : k ≠ key t) :
    alookup (registerOne r l t).listeners k = alookup r.listeners k := by
  unfold registerOne
  cases h : alookup r.listeners (key t) with
  | none =>
    simp only [h]
    cases h2 : alookup r.listeners k with
    | none => rw [alookup_append_none _ h2]; simp [alookup, Ne.symm hne]
    | some w => exact alookup_append_some _ h2
  | some ls =>
    by_cases hm : l ∈ ls
    · simp [h, hm]
    · simp only [h, hm, if_false, Bool.false_eq_true, if_neg, not_false_iff]
      exact alookup_aupdate_ne r.listeners _ (fun h3 => hne h3.symm)

theorem unregisterOne_frame {L : Type} [DecidableEq L] (r : Receiver L) (l : L)
    (t : MType) {k : String} (hne : k ≠ key t) :
    alookup (unregisterOne r l t).listeners k = alookup r.listeners k := by
  unfold unregisterOne
  cases h : alookup r.listeners (key t) with
  | none => simp [h]
  | some ls =>
    by_cases hm : l ∈ ls
    · simp only [h, hm, if_true]
      exact alookup_aupdate_ne r.listeners _ (fun h3 => hne h3.symm)
    · simp [h, hm]

theorem register_frame {L : Type} [DecidableEq L] (r : Receiver L) (l : L)
    (ts : List MType) {k : String} (hne : k ∉ ts.map key) :
    alookup (register r l ts).listeners k = alookup r.listeners k := by
  induction ts generalizing r with
  | nil => rfl
  | cons t rest ih =>
    simp only [List.map_cons, List.mem_cons, not_or] at hne
    unfold register at ih ⊢
    rw [List.foldl_cons, ih (registerOne r l t) hne.2, registerOne_frame r l t hne.1]

theorem unregister_frame {L : Type} [DecidableEq L] (r : Receiver L) (l : L)
    (ts : List MType) {k : String} (hne : k ∉ ts.map key) :
    alookup (unregister r l ts).listeners k = alookup r.listeners k := by
  induction ts generalizing r with
  | nil => rfl
  | cons t rest ih =>
    simp only [List.map_cons, List.mem_cons, not_or] at hne
    unfold unregister at ih ⊢
    rw [List.foldl_cons, ih (unregisterOne r l t) hne.2, unregisterOne_frame r l t hne.1]

end Receiver


/-- `l` is in the listener collection stored under key `k`. -/
def InColl {L : Type} (r : Receiver L) (k : String) (l : L) : Prop :=
  ∃ ls, alookup r.listeners k = some ls ∧ l ∈ ls

namespace Receiver

theorem registerOne_eq_new {L : Type} [DecidableEq L] {r : Receiver L} {l : L}
    {t : MType} (h : alookup r.listeners (key t) = none) :
    registerOne r l t = { r with listeners := r.listeners ++ [(key t, [l])] } := by
  simp [registerOne, h]

theorem registerOne_eq_present {L : Type} [DecidableEq L] {r : Receiver L} {l : L}
    {t : MType} {ls : List L} (h : alookup r.listeners (key t) = some ls)
    (hm : l ∈ ls) : registerOne r l t = r := by
  simp [registerOne, h, hm]

theorem registerOne_eq_append {L : Type} [DecidableEq L] {r : Receiver L} {l : L}
    {t : MType} {ls : List L} (h : alookup r.listeners (key t) = some ls)
    (hm : l ∉ ls) :
    registerOne r l t = { r with listeners := aupdate r.listeners (key t) (ls ++ [l]) } := by
  simp [registerOne, h, hm]

theorem unregisterOne_eq_none {L : Type} [DecidableEq L] {r : Receiver L} {l : L}
    {t : MType} (h : alookup r.listeners (key t) = none) :
    unregisterOne r l t = r := by
  simp [unregisterOne, h]

theorem unregisterOne_eq_absent {L : Type} [DecidableEq L] {r : Receiver L} {l : L}
    {t : MType} {ls : List L} (h : alookup r.listeners (key t) = some ls)
    (hm : l ∉ ls) : unregisterOne r l t = r := by
  simp [unregisterOne, h, hm]

theorem unregisterOne_eq_remove {L : Type} [DecidableEq L] {r : Receiver L} {l : L}
    {t : MType} {ls : List L} (h : alookup r.listeners (key t) = some ls)
    (hm : l ∈ ls) :
    unregisterOne r l t =
      { r with listeners := aupdate r.listeners (key t) (removeFirst ls l) } := by
  simp [unregisterOne, h, hm]

end Receiver

namespace Receiver

theorem wf_registerOne {L : Type} [DecidableEq L] {r : Receiver L} (l : L)
    (t : MType) (hw : WF r) : WF (registerOne r l t) := by
  cases h : alookup r.listeners (key t) with
  | none =>
    rw [registerOne_eq_new h]
    intro p hp
    simp only [List.mem_append, List.mem_singleton] at hp
    rcases hp with hp | hp
    · exact hw p hp
    · subst hp
      simp
  | some ls =>
    by_cases hm : l ∈ ls
    · rw [registerOne_eq_present h hm]
      exact hw
    · rw [registerOne_eq_append h hm]
      intro p hp
      rcases mem_aupdate hp with hp2 | hp2
      · exact hw p hp2
      · subst hp2
        simp only []
        rw [List.nodup_append]
        exact ⟨hw _ (alookup_mem h), List.nodup_singleton l, by simpa using hm⟩

theorem wf_unregisterOne {L : Type} [DecidableEq L] {r : Receiver L} (l : L)
    (t : MType) (hw : WF r) : WF (unregisterOne r l t) := by
  cases h : alookup r.listeners (key t) with
  | none =>
    rw [unregisterOne_eq_none h]
    exact hw
  | some ls =>
    by_cases hm : l ∈ ls
    · rw [unregisterOne_eq_remove h hm]
      intro p hp
      rcases mem_aupdate hp with hp2 | hp2
      · exact hw p hp2
      · subst hp2
        simp only []
        rw [removeFirst_eq_erase]
        exact (hw _ (alookup_mem h)).erase l
    · rw [unregisterOne_eq_absent h hm]
      exact hw

theorem wf_register {L : Type} [DecidableEq L] {r : Receiver L} (l : L)
    (ts : List MType) (hw : WF r) : WF (register r l ts) := by
  induction ts generalizing r with
  | nil => exact hw
  | cons t rest ih =>
    unfold register at ih ⊢
    rw [List.foldl_cons]
    exact ih (wf_registerOne l t hw)

theorem wf_unregister {L : Type} [DecidableEq L] {r : Receiver L} (l : L)
    (ts : List MType) (hw : WF r) : WF (unregister r l ts) := by
  induction ts generalizing r with
  | nil => exact hw
  | cons t rest ih =>
    unfold unregister at ih ⊢
    rw [List.foldl_cons]
    exact ih (wf_unregisterOne l t hw)

theorem wf_runOps {L : Type} [DecidableEq L] (tys : List (String × MType))
    (ops : List (Op L)) : WF (runOps tys ops) := by
  have base : WF (Receiver.mk ([] : List (String × List L)) tys) := by
    intro p hp
    simp at hp
  unfold runOps
  generalize Receiver.mk ([] : List (String × List L)) tys = r0 at base ⊢
  induction ops generalizing r0 with
  | nil => exact base
  | cons op rest ih =>
    rw [List.foldl_cons]
    apply ih
    cases op with
    | reg l ts => exact wf_register l ts base
    | unreg l ts => exact wf_unregister l ts base

theorem registerOne_inColl {L : Type} [DecidableEq L] (r : Receiver L) (l : L)
    (t : MType) : InColl (registerOne r l t) (key t) l := by
  cases h : alookup r.listeners (key t) with
  | none =>
    rw [registerOne_eq_new h]
    refine ⟨[l], ?_, List.mem_singleton_self l⟩
    simp only []
    rw [alookup_append_none _ h]
    simp [alookup]
  | some ls =>
    by_cases hm : l ∈ ls
    · rw [registerOne_eq_present h hm]
      exact ⟨ls, h, hm⟩
    · rw [registerOne_eq_append h hm]
      refine ⟨ls ++ [l], ?_, by simp⟩
      exact alookup_aupdate_self _ h

theorem registerOne_inColl_mono {L : Type} [DecidableEq L] {r : Receiver L}
    {k : String} {l : L} (l2 : L) (t : MType) (hin : InColl r k l) :
    InColl (registerOne r l2 t) k l := by
  by_cases hk : k = key t
  · subst hk
    obtain ⟨ls, hls, hmem⟩ := hin
    by_cases hm : l2 ∈ ls
    · rw [registerOne_eq_present hls hm]
      exact ⟨ls, hls, hmem⟩
    · rw [registerOne_eq_append hls hm]
      refine ⟨ls ++ [l2], ?_, List.mem_append_left _ hmem⟩
      exact alookup_aupdate_self _ hls
  · obtain ⟨ls, hls, hmem⟩ := hin
    exact ⟨ls, by rw [registerOne_frame r l2 t hk, hls], hmem⟩

theorem register_inColl {L : Type} [DecidableEq L] (r : Receiver L) (l : L)
    {ts : List MType} {t : MType} (ht : t ∈ ts) :
    InColl (register r l ts) (key t) l := by
  induction ts generalizing r with
  | nil => simp at ht
  | cons t0 rest ih =>
    unfold register at ih ⊢
    rw [List.foldl_cons]
    rcases List.mem_cons.mp ht with ht0 | ht0
    · subst ht0
      have base := registerOne_inColl r l t
      clear ih ht
      generalize registerOne r l t = r1 at base ⊢
      induction rest generalizing r1 with
      | nil => exact base
      | cons t2 rest2 ih2 =>
        rw [List.foldl_cons]
        exact ih2 _ (registerOne_inColl_mono l t2 base)
    · exact ih (registerOne r l t0) ht0

theorem unregisterOne_notInColl {L : Type} [DecidableEq L] {r : Receiver L}
    (l : L) (t : MType) (hw : WF r) :
    ¬ InColl (unregisterOne r l t) (key t) l := by
  cases h : alookup r.listeners (key t) with
  | none =>
    rw [unregisterOne_eq_none h]
    rintro ⟨ls, hls, hmem⟩
    rw [h] at hls
    exact Option.noConfusion hls
  | some ls =>
    by_cases hm : l ∈ ls
    · rw [unregisterOne_eq_remove h hm]
      rintro ⟨ls2, hls2, hmem2⟩
      simp only [] at hls2
      rw [alookup_aupdate_self _ h] at hls2
      cases hls2
      rw [removeFirst_eq_erase] at hmem2
      exact (hw _ (alookup_mem h)).not_mem_erase hmem2
    · rw [unregisterOne_eq_absent h hm]
      rintro ⟨ls2, hls2, hmem2⟩
      rw [h] at hls2
      cases hls2
      exact hm hmem2

theorem unregisterOne_notInColl_mono {L : Type} [DecidableEq L] {r : Receiver L}
    {k : String} {l : L} (t : MType) (hout : ¬ InColl r k l) :
    ¬ InColl (unregisterOne r l t) k l := by
  by_cases hk : k = key t
  · subst hk
    cases h : alookup r.listeners (key t) with
    | none =>
      rw [unregisterOne_eq_none h]
      exact hout
    | some ls =>
      have hm : l ∉ ls := fun hm2 => hout ⟨ls, h, hm2⟩
      rw [unregisterOne_eq_absent h hm]
      exact hout
  · rintro ⟨ls, hls, hmem⟩
    rw [unregisterOne_frame r l t hk] at hls
    exact hout ⟨ls, hls, hmem⟩

theorem unregister_notInColl {L : Type} [DecidableEq L] {r : Receiver L}
    (l : L) {ts : List MType} {t : MType} (ht : t ∈ ts) (hw : WF r) :
    ¬ InColl (unregister r l ts) (key t) l := by
  induction ts generalizing r with
  | nil => simp at ht
  | cons t0 rest ih =>
    unfold unregister at ih ⊢
    rw [List.foldl_cons]
    rcases List.mem_cons.mp ht with ht0 | ht0
    · subst ht0
      have base := unregisterOne_notInColl l t hw
      clear ih ht
      generalize unregisterOne r l t = r1 at base ⊢
      induction rest generalizing r1 with
      | nil => exact base
      | cons t2 rest2 ih2 =>
        rw [List.foldl_cons]
        exact ih2 _ (unregisterOne_notInColl_mono t2 base)
    · exact ih ht0 (wf_unregisterOne l t0 hw)

end Receiver

namespace Receiver

theorem dispatch_eq_found {L : Type} {r : Receiver L} {name : String}
    (mapping : Mapping) {t : MType} {ls : List L}
    (ht : alookup r.types name = some t)
    (hl : alookup r.listeners (key t) = some ls) :
    dispatch r name mapping =
      (r, some (Message.mk t mapping), ls.map fun x => (x, Message.mk t mapping)) := by
  simp [dispatch, ht, hl]

theorem dispatch_eq_noType {L : Type} {r : Receiver L} {name : String}
    (mapping : Mapping) (ht : alookup r.types name = none) :
    dispatch r name mapping = (r, none, []) := by
  simp [dispatch, ht]

theorem dispatch_eq_noColl {L : Type} {r : Receiver L} {name : String}
    (mapping : Mapping) {t : MType} (ht : alookup r.types name = some t)
    (hl : alookup r.listeners (key t) = none) :
    dispatch r name mapping = (r, none, []) := by
  simp [dispatch, ht, hl]

theorem dispatch_state {L : Type} (r : Receiver L) (name : String)
    (mapping : Mapping) : (dispatch r name mapping).1 = r := by
  cases ht : alookup r.types name with
  | none => rw [dispatch_eq_noType mapping ht]
  | some t =>
    cases hl : alookup r.listeners (key t) with
    | none => rw [dispatch_eq_noColl mapping ht hl]
    | some ls => rw [dispatch_eq_found mapping ht hl]

end Receiver

/-- zip pairs names with values positionally: the first components are the
declared names that received a value (the rest are dropped, none are
padded). -/
theorem zip_map_fst {α β : Type} :
    ∀ (l1 : List α) (l2 : List β), (l1.zip l2).map Prod.fst = l1.take l2.length := by
  intro l1
  induction l1 with
  | nil => intro l2; simp
  | cons x xs ih =>
    intro l2
    cases l2 with
    | nil => simp
    | cons y ys => simp [ih]

/-- Well-formedness is a finite check over the stored collections, hence
decidable. -/
instance wfDecidable {L : Type} [DecidableEq L] (r : Receiver L) :
    Decidable (WF r) :=
  decidable_of_iff (∀ p ∈ r.listeners, (Prod.snd p).Nodup) Iff.rfl

/-! ### Concrete sample data used by witnesses and counterexamples -/

/-- A sample message type with a declared name. -/
def tickT : MType := MType.mk (some "TickPrice") "class TickPrice"

/-- A sample message type without a declared name. -/
def anonT : MType := MType.mk none "anonymous type object"

/-- The error message type. -/
def errT : MType := MType.mk (some "Error") "class Error"

/-- A sample type registry mapping two callback names. -/
def sampleTypes : List (String × MType) :=
  [("tickPrice", tickT), ("error", errT)]

/-- A sample field mapping. -/
def sampleMap : Mapping :=
  [("tickerId", PyVal.int 42), ("field", PyVal.int 1), ("price", PyVal.obj 7)]

/-- A receiver with one listener (numbered 0) registered for `tickT`. -/
def sampleR : Receiver Nat :=
  Receiver.mk [("TickPrice", [0])] sampleTypes

/-- A receiver with an empty listener registry. -/
def emptyR : Receiver Nat :=
  Receiver.mk [] sampleTypes

/-! ### Claims -/

/-- C1: for every listener in the collection registered under a message
type's key — under the registry invariant maintained by
register/unregister — a `dispatch(name, mapping)` whose Type Registry
maps `name` to that type constructs exactly one message instance from the
type and the supplied field mapping, and invokes the listener exactly
once, with every invocation carrying that message. -/
theorem C1_dispatch_invokes_listener_once {L : Type} [DecidableEq L]
    (r : Receiver L) (l : L) (name : String) (mapping : Mapping)
    (t : MType) (ls : List L) (hw : WF r)
    (ht : alookup r.types name = some t)
    (hl : alookup r.listeners (Receiver.key t) = some ls) (hmem : l ∈ ls) :
    (Receiver.dispatch r name mapping).2.1 = some (Message.mk t mapping) ∧
    ((Receiver.dispatch r name mapping).2.2.filter fun p => p.1 == l).length = 1 ∧
    ∀ p ∈ (Receiver.dispatch r name mapping).2.2, p.2 = Message.mk t mapping := by
  rw [Receiver.dispatch_eq_found mapping ht hl]
  refine ⟨rfl, ?_, ?_⟩
  · show ((ls.map fun x => (x, Message.mk t mapping)).filter
      fun p => p.1 == l).length = 1
    rw [List.filter_map, List.length_map]
    have hcomp : ((fun p : L × Message => p.1 == l) ∘
        fun x => (x, Message.mk t mapping)) = (fun x => x == l) := rfl
    rw [hcomp, ← List.countP_eq_length_filter]
    have hc : List.countP (fun x => x == l) ls = List.count l ls := rfl
    rw [hc]
    exact List.count_eq_one_of_mem (hw _ (alookup_mem hl)) hmem
  · show ∀ p ∈ ls.map fun x => (x, Message.mk t mapping), p.2 = Message.mk t mapping
    intro p hp
    simp only [List.mem_map] at hp
    obtain ⟨x, hx, hpx⟩ := hp
    rw [← hpx]

/-- Witness for C1 at a concrete receiver: listener 0 registered for
`tickT`, dispatching `tickPrice` with `sampleMap`. -/
theorem C1_witness :
    (Receiver.dispatch sampleR "tickPrice" sampleMap).2.1 =
      some (Message.mk tickT sampleMap) ∧
    ((Receiver.dispatch sampleR "tickPrice" sampleMap).2.2.filter
      fun p => p.1 == 0).length = 1 ∧
    ∀ p ∈ (Receiver.dispatch sampleR "tickPrice" sampleMap).2.2,
      p.2 = Message.mk tickT sampleMap :=
  C1_dispatch_invokes_listener_once sampleR 0 "tickPrice" sampleMap tickT [0]
    (by decide) (by decide) (by decide) (by decide)

theorem wrapperLookup_eq_none {table : List (String × List String)} {name : String}
    (h : name ∉ table.map Prod.fst) : wrapperLookup table name = none := by
  induction table with
  | nil => rfl
  | cons p rest ih =>
    obtain ⟨n, args⟩ := p
    simp only [List.map_cons, List.mem_cons, not_or] at h
    rw [wrapperLookup, ih h.2]
    simp [Ne.symm h.1]

theorem wrapperLookup_eq_of_nodup {table : List (String × List String)}
    {name : String} {argnames : List String} (hmem : (name, argnames) ∈ table)
    (hnd : (table.map Prod.fst).Nodup) :
    wrapperLookup table name = some argnames := by
  induction table with
  | nil => simp at hmem
  | cons p rest ih =>
    obtain ⟨n, args⟩ := p
    simp only [List.map_cons, List.nodup_cons] at hnd
    rcases List.mem_cons.mp hmem with h0 | h0
    · cases h0
      rw [wrapperLookup, wrapperLookup_eq_none hnd.1]
      simp
    · have hn : n ≠ name := by
        intro he
        subst he
        exact hnd.1 (List.mem_map.mpr ⟨(n, argnames), h0, rfl⟩)
      rw [wrapperLookup, ih h0 hnd.2]

/-- A sample Callback Argument Table with distinct names. -/
def sampleTable : List (String × List String) :=
  [("tickPrice", ["tickerId", "field", "price"]), ("tickSize", ["tickerId", "field", "size"])]

/-- C2: for every `(name, argnames)` pair of a Callback Argument Table
with distinct names, the generated Receiver entry point under `name`
is `messageMethod name argnames`; invoked with positional values it
calls `dispatch(name, mapping)` where the mapping zips the declared
argument names with the values: it has `min(N, len(argnames))` entries,
its keys are the argument names that received a value (extra values are
dropped, missing ones produce no entry), and its `i`-th entry pairs the
`i`-th argument name with the `i`-th value. -/
theorem C2_entry_point_builds_mapping {L : Type} [DecidableEq L]
    (table : List (String × List String)) (name : String)
    (argnames : List String) (r : Receiver L) (args : List PyVal)
    (hmem : (name, argnames) ∈ table) (hnd : (table.map Prod.fst).Nodup) :
    receiverMethod (L := L) table name = some (messageMethod name argnames) ∧
    messageMethod name argnames r args =
      Receiver.dispatch r name (argnames.zip args) ∧
    (argnames.zip args).length = min args.length argnames.length ∧
    (argnames.zip args).map Prod.fst = argnames.take args.length ∧
    ∀ (i : Nat) (h3 : i < (argnames.zip args).length)
      (h1 : i < argnames.length) (h2 : i < args.length),
      (argnames.zip args).get ⟨i, h3⟩ = (argnames.get ⟨i, h1⟩, args.get ⟨i, h2⟩) := by
  refine ⟨?_, rfl, ?_, zip_map_fst argnames args, ?_⟩
  · rw [receiverMethod, wrapperLookup_eq_of_nodup hmem hnd]
    rfl
  · rw [List.length_zip, Nat.min_comm]
  · intro i h3 h1 h2
    simp [List.getElem_zip]

/-- Witness for C2 at the sample table: the `tickPrice` entry point
invoked with three values. -/
theorem C2_witness :
    receiverMethod (L := Nat) sampleTable "tickPrice" =
      some (messageMethod "tickPrice" ["tickerId", "field", "price"]) ∧
    messageMethod "tickPrice" ["tickerId", "field", "price"] sampleR
        [PyVal.int 42, PyVal.int 1, PyVal.obj 7] =
      Receiver.dispatch sampleR "tickPrice"
        (["tickerId", "field", "price"].zip [PyVal.int 42, PyVal.int 1, PyVal.obj 7]) ∧
    (["tickerId", "field", "price"].zip
        [PyVal.int 42, PyVal.int 1, PyVal.obj 7]).length = min 3 3 ∧
    (["tickerId", "field", "price"].zip
        [PyVal.int 42, PyVal.int 1, PyVal.obj 7]).map Prod.fst =
      ["tickerId", "field", "price"].take 3 ∧
    (["tickerId", "field", "price"].zip
        [PyVal.int 42, PyVal.int 1, PyVal.obj 7]).get ⟨0, by decide⟩ =
      (["tickerId", "field", "price"].get ⟨0, by decide⟩,
       [PyVal.int 42, PyVal.int 1, PyVal.obj 7].get ⟨0, by decide⟩) := by
  have h := C2_entry_point_builds_mapping sampleTable "tickPrice"
    ["tickerId", "field", "price"] sampleR [PyVal.int 42, PyVal.int 1, PyVal.obj 7]
    (by decide) (by decide)
  exact ⟨h.1, h.2.1, h.2.2.1, h.2.2.2.1, h.2.2.2.2 0 (by decide) (by decide) (by decide)⟩

/-- C3: the overloaded `error` entry point resolves by argument shape,
and all three shapes dispatch under the name `error`: a single non-string
value dispatches with mapping exactly `{errorMsg: value}` (no `id` or
`errorCode` keys), a triple `(int id, int errorCode, str errorMsg)`
dispatches with mapping `{id, errorCode, errorMsg}`, and a single string
dispatches with mapping exactly `{errorMsg: string}`. -/
theorem C3_error_shapes {L : Type} [DecidableEq L] (r : Receiver L)
    (v : PyVal) (i c : Int) (s msg : String) (hv : v.isStr = false) :
    Receiver.error r [v] =
      some (Receiver.dispatch r "error" [("errorMsg", v)]) ∧
    alookup [("errorMsg", v)] "id" = none ∧
    alookup [("errorMsg", v)] "errorCode" = none ∧
    Receiver.error r [PyVal.str s] =
      some (Receiver.dispatch r "error" [("errorMsg", PyVal.str s)]) ∧
    Receiver.error r [PyVal.int i, PyVal.int c, PyVal.str msg] =
      some (Receiver.dispatch r "error"
        [("id", PyVal.int i), ("errorCode", PyVal.int c),
         ("errorMsg", PyVal.str msg)]) := by
  refine ⟨?_, by simp [alookup], by simp [alookup], rfl, rfl⟩
  cases v with
  | int n => rfl
  | str s2 => simp [PyVal.isStr] at hv
  | obj n => rfl

/-- Witness for C3 at concrete shapes: a non-string error value `99`, the
triple `(7, 502, "bad gateway")`, and the single string `"oops"`. -/
theorem C3_witness :
    Receiver.error sampleR [PyVal.int 99] =
      some (Receiver.dispatch sampleR "error" [("errorMsg", PyVal.int 99)]) ∧
    alookup [("errorMsg", PyVal.int 99)] "id" = none ∧
    alookup [("errorMsg", PyVal.int 99)] "errorCode" = none ∧
    Receiver.error sampleR [PyVal.str "oops"] =
      some (Receiver.dispatch sampleR "error" [("errorMsg", PyVal.str "oops")]) ∧
    Receiver.error sampleR [PyVal.int 7, PyVal.int 502, PyVal.str "bad gateway"] =
      some (Receiver.dispatch sampleR "error"
        [("id", PyVal.int 7), ("errorCode", PyVal.int 502),
         ("errorMsg", PyVal.str "bad gateway")]) :=
  C3_error_shapes sampleR (PyVal.int 99) 7 502 "oops" "bad gateway" rfl

/-- C4: starting from an empty listener registry, any sequence of
register/unregister calls keeps every collection duplicate-free (each
listener appears at most once per key); registering a listener already
present for the type leaves the state unchanged; registering an absent
listener appends it at the end of the collection; and unregistering then
re-registering a present listener moves it to the end of the
collection. -/
theorem C4_registry_invariant {L : Type} [DecidableEq L] :
    (∀ (tys : List (String × MType)) (ops : List (Op L)),
      WF (runOps tys ops)) ∧
    (∀ (r : Receiver L) (l : L) (t : MType) (ls : List L),
      alookup r.listeners (Receiver.key t) = some ls → l ∈ ls →
      Receiver.registerOne r l t = r) ∧
    (∀ (r : Receiver L) (l : L) (t : MType) (ls : List L),
      alookup r.listeners (Receiver.key t) = some ls → l ∉ ls →
      alookup (Receiver.registerOne r l t).listeners (Receiver.key t) =
        some (ls ++ [l])) ∧
    (∀ (r : Receiver L) (l : L) (t : MType) (ls : List L), ls.Nodup →
      alookup r.listeners (Receiver.key t) = some ls → l ∈ ls →
      alookup (Receiver.registerOne (Receiver.unregisterOne r l t) l t).listeners
        (Receiver.key t) = some (removeFirst ls l ++ [l])) := by
  refine ⟨Receiver.wf_runOps, ?_, ?_, ?_⟩
  · intro r l t ls h hm
    exact Receiver.registerOne_eq_present h hm
  · intro r l t ls h hm
    rw [Receiver.registerOne_eq_append h hm]
    exact alookup_aupdate_self _ h
  · intro r l t ls hn h hm
    rw [Receiver.unregisterOne_eq_remove h hm]
    have h2 : alookup (aupdate r.listeners (Receiver.key t) (removeFirst ls l))
        (Receiver.key t) = some (removeFirst ls l) :=
      alookup_aupdate_self _ h
    have hm2 : l ∉ removeFirst ls l := by
      rw [removeFirst_eq_erase]
      exact hn.not_mem_erase
    rw [Receiver.registerOne_eq_append h2 hm2]
    exact alookup_aupdate_self _ h2

/-- Witness for C4 at concrete states: a register/unregister sequence
from empty stays well-formed; re-registering listener 0 is a no-op;
registering the fresh listener 1 appends it; unregister-then-register
moves listener 0 to the end. -/
theorem C4_witness :
    WF (runOps sampleTypes [Op.reg 0 [tickT], Op.unreg (0 : Nat) [tickT]]) ∧
    Receiver.registerOne sampleR 0 tickT = sampleR ∧
    alookup (Receiver.registerOne sampleR 1 tickT).listeners
      (Receiver.key tickT) = some [0, 1] ∧
    alookup (Receiver.registerOne (Receiver.unregisterOne sampleR 0 tickT) 0
      tickT).listeners (Receiver.key tickT) = some (removeFirst [0] 0 ++ [0]) := by
  have h := C4_registry_invariant (L := Nat)
  exact ⟨h.1 sampleTypes _, h.2.1 sampleR 0 tickT [0] (by decide) (by decide),
    h.2.2.1 sampleR 1 tickT [0] (by decide) (by decide),
    h.2.2.2 sampleR 0 tickT [0] (by decide) (by decide) (by decide)⟩

/-- A receiver whose listener registry holds an entry with an empty
collection for `tickT`, exactly the state produced by registering a
listener for `tickT` and then unregistering it. -/
def emptyCollR : Receiver Nat :=
  Receiver.mk [("TickPrice", [])] sampleTypes

/-- C5 counterexample: after registering listener 0 for `tickT` and
unregistering it again, no listener is registered for the resolved key
(the stored collection is empty), yet `dispatch` still constructs a
message instance — contradicting the claim that no message is
constructed whenever no listeners are registered for the key.  (No
listener is invoked, and the state is unchanged.) -/
theorem C5_counterexample :
    runOps sampleTypes [Op.reg 0 [tickT], Op.unreg (0 : Nat) [tickT]] = emptyCollR ∧
    alookup emptyCollR.listeners (Receiver.key tickT) = some [] ∧
    (Receiver.dispatch emptyCollR "tickPrice" sampleMap).2.1 =
      some (Message.mk tickT sampleMap) ∧
    (Receiver.dispatch emptyCollR "tickPrice" sampleMap).2.2 = [] := by
  refine ⟨by decide, by decide, ?_, ?_⟩
  · rw [@Receiver.dispatch_eq_found Nat emptyCollR "tickPrice" sampleMap tickT []
      (by decide) (by decide)]
  · rw [@Receiver.dispatch_eq_found Nat emptyCollR "tickPrice" sampleMap tickT []
      (by decide) (by decide)]
    rfl

/-- C5 (amended): if `name` is absent from the Type Registry, or the
Listener Registry has no collection under the resolved key, `dispatch`
invokes no listener, constructs no message, raises no error, and leaves
the state unchanged; if a collection exists but is empty, `dispatch`
still constructs one message instance but invokes no listener and leaves
the state unchanged. -/
theorem C5_dispatch_unknown_event {L : Type} [DecidableEq L]
    (r : Receiver L) (name : String) (m : Mapping) :
    (alookup r.types name = none →
      Receiver.dispatch r name m = (r, none, [])) ∧
    (∀ t, alookup r.types name = some t →
      alookup r.listeners (Receiver.key t) = none →
      Receiver.dispatch r name m = (r, none, [])) ∧
    (∀ t, alookup r.types name = some t →
      alookup r.listeners (Receiver.key t) = some [] →
      Receiver.dispatch r name m = (r, some (Message.mk t m), [])) := by
  refine ⟨?_, ?_, ?_⟩
  · intro ht
    exact Receiver.dispatch_eq_noType m ht
  · intro t ht hl
    exact Receiver.dispatch_eq_noColl m ht hl
  · intro t ht hl
    rw [Receiver.dispatch_eq_found m ht hl]
    rfl

/-- Witness for the amended C5: an unknown name, a known name with no
collection, and a known name with an empty collection. -/
theorem C5_witness :
    Receiver.dispatch emptyR "unknownEvent" sampleMap = (emptyR, none, []) ∧
    Receiver.dispatch emptyR "tickPrice" sampleMap = (emptyR, none, []) ∧
    Receiver.dispatch emptyCollR "tickPrice" sampleMap =
      (emptyCollR, some (Message.mk tickT sampleMap), []) := by
  refine ⟨?_, ?_, ?_⟩
  · exact (C5_dispatch_unknown_event emptyR "unknownEvent" sampleMap).1 (by decide)
  · exact (C5_dispatch_unknown_event emptyR "tickPrice" sampleMap).2.1 tickT
      (by decide) (by decide)
  · exact (C5_dispatch_unknown_event emptyCollR "tickPrice" sampleMap).2.2 tickT
      (by decide) (by decide)

/-- C6: the dispatch trace is the listener collection mapped in order, so
listeners are invoked sequentially in collection order; in particular
registering L1 then L2 for a type with no prior collection and
dispatching a matching event once invokes L1 first and L2 second. -/
theorem C6_dispatch_in_registration_order {L : Type} [DecidableEq L]
    (r : Receiver L) (name : String) (m : Mapping) (t : MType) (ls : List L)
    (l1 l2 : L)
    (ht : alookup r.types name = some t)
    (hl : alookup r.listeners (Receiver.key t) = some ls) :
    (Receiver.dispatch r name m).2.2 = ls.map (fun x => (x, Message.mk t m)) ∧
    (∀ r0 : Receiver L, l1 ≠ l2 →
      alookup r0.types name = some t →
      alookup r0.listeners (Receiver.key t) = none →
      (Receiver.dispatch
          (Receiver.register (Receiver.register r0 l1 [t]) l2 [t]) name m).2.2 =
        [(l1, Message.mk t m), (l2, Message.mk t m)]) := by
  constructor
  · rw [Receiver.dispatch_eq_found m ht hl]
  · intro r0 hne ht0 hl0
    have h1 : Receiver.register r0 l1 [t] = Receiver.registerOne r0 l1 t := rfl
    have h2 : Receiver.register (Receiver.registerOne r0 l1 t) l2 [t] =
        Receiver.registerOne (Receiver.registerOne r0 l1 t) l2 t := rfl
    rw [h1, h2]
    rw [Receiver.registerOne_eq_new hl0]
    have hlook1 : alookup (r0.listeners ++ [(Receiver.key t, [l1])])
        (Receiver.key t) = some [l1] := by
      rw [alookup_append_none _ hl0]
      simp [alookup]
    have hm2 : l2 ∉ [l1] := by
      simp only [List.mem_singleton]
      exact fun he => hne he.symm
    set r1 : Receiver L :=
      { r0 with listeners := r0.listeners ++ [(Receiver.key t, [l1])] } with hr1
    have hlook1b : alookup r1.listeners (Receiver.key t) = some [l1] := hlook1
    rw [Receiver.registerOne_eq_append hlook1b hm2]
    set r2 : Receiver L :=
      { r1 with listeners := aupdate r1.listeners (Receiver.key t) ([l1] ++ [l2]) }
      with hr2
    have hr2t : alookup r2.types name = some t := ht0
    have hr2l : alookup r2.listeners (Receiver.key t) = some [l1, l2] :=
      alookup_aupdate_self _ hlook1b
    rw [Receiver.dispatch_eq_found m hr2t hr2l]
    rfl

/-- Witness for C6: the trace of a dispatch to the sample receiver, and
the concrete L1-before-L2 scenario from an empty registry. -/
theorem C6_witness :
    (Receiver.dispatch sampleR "tickPrice" sampleMap).2.2 =
      [0].map (fun x => (x, Message.mk tickT sampleMap)) ∧
    (Receiver.dispatch
        (Receiver.register (Receiver.register emptyR 0 [tickT]) 1 [tickT])
        "tickPrice" sampleMap).2.2 =
      [(0, Message.mk tickT sampleMap), (1, Message.mk tickT sampleMap)] := by
  have h := C6_dispatch_in_registration_order sampleR "tickPrice" sampleMap
    tickT [0] 0 1 (by decide) (by decide)
  exact ⟨h.1, h.2 emptyR (by decide) (by decide) (by decide)⟩

/-- C7: `unregister(listener, *types)` iterates `unregisterOne` over the
given types; for one type, a missing collection is a silent no-op, a
collection not containing the listener is a silent no-op, and a
collection containing it has its first occurrence removed while the rest
of the registry is untouched. -/
theorem C7_unregister_removes_or_noop {L : Type} [DecidableEq L]
    (r : Receiver L) (l : L) (t : MType) (ts : List MType) :
    Receiver.unregister r l ts =
      ts.foldl (fun s t2 => Receiver.unregisterOne s l t2) r ∧
    (alookup r.listeners (Receiver.key t) = none →
      Receiver.unregisterOne r l t = r) ∧
    (∀ ls, alookup r.listeners (Receiver.key t) = some ls → l ∉ ls →
      Receiver.unregisterOne r l t = r) ∧
    (∀ ls, alookup r.listeners (Receiver.key t) = some ls → l ∈ ls →
      alookup (Receiver.unregisterOne r l t).listeners (Receiver.key t) =
        some (removeFirst ls l) ∧
      ∀ k, k ≠ Receiver.key t →
        alookup (Receiver.unregisterOne r l t).listeners k =
          alookup r.listeners k) := by
  refine ⟨rfl, ?_, ?_, ?_⟩
  · intro h
    exact Receiver.unregisterOne_eq_none h
  · intro ls h hm
    exact Receiver.unregisterOne_eq_absent h hm
  · intro ls h hm
    constructor
    · rw [Receiver.unregisterOne_eq_remove h hm]
      exact alookup_aupdate_self _ h
    · intro k hk
      exact Receiver.unregisterOne_frame r l t hk

/-- Witness for C7: unregistering from a receiver with no collection for
the key, with a collection not containing listener 1, and with a
collection containing listener 0. -/
theorem C7_witness :
    Receiver.unregister emptyR 0 [tickT] =
      [tickT].foldl (fun s t2 => Receiver.unregisterOne s 0 t2) emptyR ∧
    Receiver.unregisterOne emptyR 0 tickT = emptyR ∧
    Receiver.unregisterOne sampleR 1 tickT = sampleR ∧
    alookup (Receiver.unregisterOne sampleR 0 tickT).listeners
      (Receiver.key tickT) = some (removeFirst [0] 0) ∧
    alookup (Receiver.unregisterOne sampleR 0 tickT).listeners "Error" =
      alookup sampleR.listeners "Error" := by
  have ha := C7_unregister_removes_or_noop emptyR 0 tickT [tickT]
  have hb := C7_unregister_removes_or_noop sampleR 1 tickT [tickT]
  have hc := C7_unregister_removes_or_noop sampleR 0 tickT [tickT]
  have hc2 := hc.2.2.2 [0] (by decide) (by decide)
  exact ⟨ha.1, ha.2.1 (by decide), hb.2.2.1 [0] (by decide) (by decide),
    hc2.1, hc2.2 "Error" (by decide)⟩

theorem trace_filter_one {L : Type} [DecidableEq L] (ls : List L) (l : L)
    (msg : Message) (hn : ls.Nodup) (hm : l ∈ ls) :
    ((ls.map fun x => (x, msg)).filter fun p => p.1 == l).length = 1 := by
  rw [List.filter_map, List.length_map]
  have hcomp : ((fun p : L × Message => p.1 == l) ∘ fun x => (x, msg)) =
      (fun x => x == l) := rfl
  rw [hcomp, ← List.countP_eq_length_filter]
  have hc : List.countP (fun x => x == l) ls = List.count l ls := rfl
  rw [hc]
  exact List.count_eq_one_of_mem hn hm

theorem trace_filter_zero {L : Type} [DecidableEq L] (ls : List L) (l : L)
    (msg : Message) (hm : l ∉ ls) :
    ((ls.map fun x => (x, msg)).filter fun p => p.1 == l).length = 0 := by
  rw [List.filter_map, List.length_map]
  have hcomp : ((fun p : L × Message => p.1 == l) ∘ fun x => (x, msg)) =
      (fun x => x == l) := rfl
  rw [hcomp, ← List.countP_eq_length_filter]
  have hc : List.countP (fun x => x == l) ls = List.count l ls := rfl
  rw [hc]
  exact List.count_eq_zero_of_not_mem hm

/-- C8: `registerAll` is registering for every message type in the Type
Registry and `unregisterAll` is unregistering from every one; under the
registry invariant, after `registerAll` a dispatch of any name known to
the Type Registry invokes the listener exactly once, and after a
subsequent `unregisterAll` the same dispatch invokes it zero times. -/
theorem C8_registerAll_unregisterAll {L : Type} [DecidableEq L]
    (r : Receiver L) (l : L) (name : String) (m : Mapping) (t : MType)
    (hw : WF r) (ht : alookup r.types name = some t) :
    Receiver.registerAll r l = Receiver.register r l (r.types.map Prod.snd) ∧
    Receiver.unregisterAll r l = Receiver.unregister r l (r.types.map Prod.snd) ∧
    ((Receiver.dispatch (Receiver.registerAll r l) name m).2.2.filter
      fun p => p.1 == l).length = 1 ∧
    ((Receiver.dispatch (Receiver.unregisterAll (Receiver.registerAll r l) l)
      name m).2.2.filter fun p => p.1 == l).length = 0 := by
  have hmem_t : t ∈ r.types.map Prod.snd :=
    List.mem_map.mpr ⟨(name, t), alookup_mem ht, rfl⟩
  have hRt : (Receiver.registerAll r l).types = r.types :=
    Receiver.register_types r l _
  have hwR : WF (Receiver.registerAll r l) := Receiver.wf_register l _ hw
  have htR : alookup (Receiver.registerAll r l).types name = some t := by
    rw [hRt]
    exact ht
  refine ⟨rfl, rfl, ?_, ?_⟩
  · obtain ⟨ls, hls, hmem⟩ :=
      @Receiver.register_inColl L _ r l (r.types.map Prod.snd) t hmem_t
    rw [Receiver.dispatch_eq_found m htR hls]
    exact trace_filter_one ls l (Message.mk t m) (hwR _ (alookup_mem hls)) hmem
  · have hmem_t2 : t ∈ (Receiver.registerAll r l).types.map Prod.snd := by
      rw [hRt]
      exact hmem_t
    have hnot : ¬ InColl
        (Receiver.unregisterAll (Receiver.registerAll r l) l)
        (Receiver.key t) l :=
      Receiver.unregister_notInColl l hmem_t2 hwR
    have htU : alookup
        (Receiver.unregisterAll (Receiver.registerAll r l) l).types name =
        some t := by
      have h2 : (Receiver.unregisterAll (Receiver.registerAll r l) l).types =
          (Receiver.registerAll r l).types :=
        Receiver.unregister_types _ l _
      rw [h2, hRt]
      exact ht
    cases hU : alookup
        (Receiver.unregisterAll (Receiver.registerAll r l) l).listeners
        (Receiver.key t) with
    | none =>
      rw [Receiver.dispatch_eq_noColl m htU hU]
      rfl
    | some ls2 =>
      have hm2 : l ∉ ls2 := fun hmem2 => hnot ⟨ls2, hU, hmem2⟩
      rw [Receiver.dispatch_eq_found m htU hU]
      exact trace_filter_zero ls2 l (Message.mk t m) hm2

/-- Witness for C8 at the sample receiver and the `tickPrice` event. -/
theorem C8_witness :
    Receiver.registerAll sampleR 3 =
      Receiver.register sampleR 3 (sampleR.types.map Prod.snd) ∧
    Receiver.unregisterAll sampleR 3 =
      Receiver.unregister sampleR 3 (sampleR.types.map Prod.snd) ∧
    ((Receiver.dispatch (Receiver.registerAll sampleR 3) "tickPrice"
      sampleMap).2.2.filter fun p => p.1 == 3).length = 1 ∧
    ((Receiver.dispatch
        (Receiver.unregisterAll (Receiver.registerAll sampleR 3) 3) "tickPrice"
      sampleMap).2.2.filter fun p => p.1 == 3).length = 0 :=
  C8_registerAll_unregisterAll sampleR 3 "tickPrice" sampleMap tickT
    (by decide) (by decide)

/-- A second message type whose key collides with `tickT` (same declared
name, different string rendering). -/
def tickT2 : MType := MType.mk (some "TickPrice") "another repr"

/-- C9: `key(obj)` returns the declared name when the object exposes one
and the string rendering otherwise (and, being total, never raises);
register and unregister depend on the type only through its key, and
dispatch reads the listener collection at exactly that key — so types
with equal keys are interchangeable as lookup keys. -/
theorem C9_key_derivation {L : Type} [DecidableEq L]
    (r : Receiver L) (l : L) (t t2 : MType) (n name : String) (m : Mapping) :
    (t.pyName = some n → Receiver.key t = n) ∧
    (t.pyName = none → Receiver.key t = t.strRepr) ∧
    (Receiver.key t = Receiver.key t2 →
      Receiver.registerOne r l t = Receiver.registerOne r l t2 ∧
      Receiver.unregisterOne r l t = Receiver.unregisterOne r l t2) ∧
    (alookup r.types name = some t →
      Receiver.dispatch r name m =
        match alookup r.listeners (Receiver.key t) with
        | none => (r, none, [])
        | some ls => (r, some (Message.mk t m), ls.map fun x => (x, Message.mk t m))) := by
  refine ⟨?_, ?_, ?_, ?_⟩
  · intro h
    simp [Receiver.key, h]
  · intro h
    simp [Receiver.key, h]
  · intro hk
    constructor
    · simp only [Receiver.registerOne, hk]
    · simp only [Receiver.unregisterOne, hk]
  · intro h
    cases hl : alookup r.listeners (Receiver.key t) with
    | none => rw [Receiver.dispatch_eq_noColl m h hl]
    | some ls => rw [Receiver.dispatch_eq_found m h hl]

/-- Witness for C9: the named type yields its declared name, the
anonymous type its string rendering, equal keys make registration
interchangeable, and dispatch reads the collection at the derived key. -/
theorem C9_witness :
    Receiver.key tickT = "TickPrice" ∧
    Receiver.key anonT = anonT.strRepr ∧
    Receiver.registerOne sampleR 0 tickT = Receiver.registerOne sampleR 0 tickT2 ∧
    Receiver.unregisterOne sampleR 0 tickT = Receiver.unregisterOne sampleR 0 tickT2 ∧
    Receiver.dispatch sampleR "tickPrice" sampleMap =
      match alookup sampleR.listeners (Receiver.key tickT) with
      | none => (sampleR, none, [])
      | some ls =>
          (sampleR, some (Message.mk tickT sampleMap),
           ls.map fun x => (x, Message.mk tickT sampleMap)) := by
  have h1 := C9_key_derivation sampleR 0 tickT tickT2 "TickPrice" "tickPrice" sampleMap
  have h2 := C9_key_derivation sampleR 0 anonT anonT "TickPrice" "tickPrice" sampleMap
  have h3 := h1.2.2.1 (by decide)
  exact ⟨h1.1 rfl, h2.2.1 rfl, h3.1, h3.2, h1.2.2.2 (by decide)⟩

/-- C10: register and unregister touch only the collections under the
keys of the given types (every other key's collection is unchanged) and
never touch the type registry; dispatch returns the receiver state
unchanged (the source method assigns to no attribute; listeners are
opaque and modelled as non-mutating). -/
theorem C10_frame_conditions {L : Type} [DecidableEq L]
    (r : Receiver L) (l : L) (ts : List MType) (k : String)
    (name : String) (m : Mapping) :
    (k ∉ ts.map Receiver.key →
      alookup (Receiver.register r l ts).listeners k = alookup r.listeners k) ∧
    (k ∉ ts.map Receiver.key →
      alookup (Receiver.unregister r l ts).listeners k = alookup r.listeners k) ∧
    (Receiver.register r l ts).types = r.types ∧
    (Receiver.unregister r l ts).types = r.types ∧
    (Receiver.dispatch r name m).1 = r := by
  refine ⟨?_, ?_, Receiver.register_types r l ts, Receiver.unregister_types r l ts,
    Receiver.dispatch_state r name m⟩
  · intro hk
    exact Receiver.register_frame r l ts hk
  · intro hk
    exact Receiver.unregister_frame r l ts hk

/-- Witness for C10: registering and unregistering listener 5 for
`tickT` leaves the `Error` collection and the type registry unchanged,
and a dispatch leaves the sample receiver unchanged. -/
theorem C10_witness :
    alookup (Receiver.register sampleR 5 [tickT]).listeners "Error" =
      alookup sampleR.listeners "Error" ∧
    alookup (Receiver.unregister sampleR 5 [tickT]).listeners "Error" =
      alookup sampleR.listeners "Error" ∧
    (Receiver.register sampleR 5 [tickT]).types = sampleR.types ∧
    (Receiver.unregister sampleR 5 [tickT]).types = sampleR.types ∧
    (Receiver.dispatch sampleR "tickPrice" sampleMap).1 = sampleR := by
  have h := C10_frame_conditions sampleR 5 [tickT] "Error" "tickPrice" sampleMap
  exact ⟨h.1 (by decide), h.2.1 (by decide), h.2.2.1, h.2.2.2.1, h.2.2.2.2⟩
